import Mathlib

/-!
Verification development for the FetchMusic backend (src/backend/main.py).

Strings are modelled as lists of characters (`Str`).  The Python string
operations used by the backend (`in`, `split`, `replace`, `strip`,
`lower`, `int`, f-string formatting) are embedded as executable Lean
functions with Python's semantics, and the relevant handler snippets of
`process_link` and `download` are transcribed on top of them.
-/

namespace FetchMusic

abbrev Str := List Char

/-- Python `pat in s` for strings: substring containment. -/
def pyIn (pat s : Str) : Bool := decide (pat <:+: s)

/-- Cons `a` onto the first element of a list of strings
(used to build up the current chunk while splitting). -/
def prependHead (a : Str) : List Str → List Str
  | [] => [a]
  | h :: t => (a ++ h) :: t

/-- Fuelled worker for `pySplit`; the fuel only has to exceed the length
of the string being split. -/
def pySplitF (sep : Str) : Nat → Str → List Str
  | 0, s => [s]
  | _ + 1, [] => [[]]
  | fuel + 1, c :: s =>
    if !sep.isEmpty && sep.isPrefixOf (c :: s) then
      [] :: pySplitF sep fuel (s.drop (sep.length - 1))
    else
      prependHead [c] (pySplitF sep fuel s)

/-- Python `s.split(sep)` for a non-empty separator: cut at each
leftmost non-overlapping occurrence of `sep`. -/
def pySplit (sep s : Str) : List Str := pySplitF sep (s.length + 1) s

/-- Python `s.split(sep)[0]`. -/
def pyCut (sep s : Str) : Str := (pySplit sep s).headD []

/-- Python `s.split(sep)[1]` (total; the code only uses it when `sep`
is known to occur, so the list has at least two parts). -/
def pyIdx1 (sep s : Str) : Str := (pySplit sep s).getD 1 []

/-- Python `s.split(sep)[-1]`. -/
def pyLast (sep s : Str) : Str := (pySplit sep s).getLastD []

/-- Python `sep.join(parts)`. -/
def joinWith (sep : Str) : List Str → Str
  | [] => []
  | [x] => x
  | x :: xs => x ++ sep ++ joinWith sep xs

/-- Python `s.replace(old, new)` (for non-empty `old`), via
`new.join(s.split(old))`. -/
def pyReplace (old new s : Str) : Str := joinWith new (pySplit old s)

/-- Python `s.strip()`: remove leading and trailing whitespace. -/
def pyStrip (s : Str) : Str :=
  ((s.dropWhile Char.isWhitespace).reverse.dropWhile Char.isWhitespace).reverse

/-- Numeric value of a list of decimal digit characters. -/
def digitsVal (s : Str) : Nat := s.foldl (fun a c => 10 * a + (c.toNat - 48)) 0

/-- Python `int(s)` on the strings reaching it in this program:
succeeds exactly on non-empty all-digit strings (`none` models the
`ValueError` exception). -/
def pyInt (s : Str) : Option Nat :=
  if !s.isEmpty && s.all Char.isDigit then some (digitsVal s) else none

/-- Decimal numeral of a natural number. -/
def natStr (n : Nat) : Str := (Nat.repr n).toList

/-- Python `f"{n:02d}"`: zero-pad to at least two digits. -/
def pad2 (n : Nat) : Str := if n < 10 then '0' :: natStr n else natStr n

/-- Python `f"{m}:{s:02d}"`. -/
def fmtDuration (m s : Nat) : Str := natStr m ++ ':' :: pad2 s

/-! ## Code under verification, transcribed from src/backend/main.py -/

/-- Video-id extraction of `process_link` (main.py lines 75-79):
`url.split("v=")[1]`, cut at the first `"&"` when `"&" in url`, then
`.split("?")[0]`; otherwise `url.split("/")[-1].split("?")[0]`. -/
def extractVideoId (url : Str) : Str :=
  if pyIn "watch?v=".toList url then
    pyCut "?".toList
      (if pyIn "&".toList url then pyCut "&".toList (pyIdx1 "v=".toList url)
       else pyIdx1 "v=".toList url)
  else
    pyCut "?".toList (pyLast "/".toList url)

/-- Video-id extraction of `download` (main.py lines 138-142); the code
is duplicated verbatim in the source. -/
def extractVideoId_dl (url : Str) : Str :=
  if pyIn "watch?v=".toList url then
    pyCut "?".toList
      (if pyIn "&".toList url then pyCut "&".toList (pyIdx1 "v=".toList url)
       else pyIdx1 "v=".toList url)
  else
    pyCut "?".toList (pyLast "/".toList url)

/-- Availability rule of `process_link` (main.py lines 116-118):
`not licensed_content or "creative commons" in description.lower()`. -/
def isDownloadable (licensedContent : Bool) (description : Str) : Bool :=
  !licensedContent || pyIn "creative commons".toList (description.map Char.toLower)

/-- Availability rule of `download` (main.py lines 151-153); duplicated
verbatim in the source. -/
def isDownloadable_dl (licensedContent : Bool) (description : Str) : Bool :=
  !licensedContent || pyIn "creative commons".toList (description.map Char.toLower)

/-- Album extraction of `process_link` (main.py lines 88-93): first line
containing `"Album:"` yields `line.split("Album:")[1].strip()`. -/
def extractAlbum (description : Str) : Option Str :=
  (pySplit ['\n'] description).findSome? fun line =>
    if pyIn "Album:".toList line then some (pyStrip (pyIdx1 "Album:".toList line))
    else none

/-- The reassignment `duration.replace("PT", "").replace("S", "")` of
main.py line 98. -/
def durationStripped (duration : Str) : Str :=
  pyReplace "S".toList [] (pyReplace "PT".toList [] duration)

/-- Duration normalization of `process_link` (main.py lines 98-105), the
body of the `if duration:` branch; `none` models an uncaught
`ValueError` from `int`. -/
def durationNorm (duration : Str) : Option Str :=
  if pyIn "M".toList (durationStripped duration) then
    match pyInt (pyCut "M".toList (durationStripped duration)),
      (if (pyIdx1 "M".toList (durationStripped duration)).isEmpty then some 0
       else pyInt (pyIdx1 "M".toList (durationStripped duration))) with
    | some m, some s => some (fmtDuration m s)
    | _, _ => none
  else
    match pyInt (durationStripped duration) with
    | some s => some (fmtDuration 0 s)
    | none => none

/-- Python truthiness of the duration value (`None` or a string). -/
def strOptTruthy : Option Str → Bool
  | none => false
  | some s => !s.isEmpty

/-- The duration handling of `process_link` (main.py lines 96-105 plus
the use at line 110): the raw `contentDetails.duration` value is
normalized only when truthy, otherwise passed through unchanged;
`Except.error` models an exception escaping to the handler's
`except` clause. -/
def processDuration : Option Str → Except Unit (Option Str)
  | none => .ok none
  | some s =>
    if s.isEmpty then .ok (some s)
    else
      match durationNorm s with
      | some r => .ok (some r)
      | none => .error ()

/-- First-match association lookup, modelling Python `dict` access on
the JSON-shaped responses (dict keys are unique, so first match is the
match). -/
def lookupAL (k : Str) : List (Str × α) → Option α
  | [] => none
  | (k', v) :: t => if k' = k then some v else lookupAL k t

/-- Thumbnail selection of `process_link` (main.py line 111):
`snippet["thumbnails"].get("high", {}).get("url")`. -/
def pickThumbnail (thumbnails : List (Str × List (Str × Str))) : Option Str :=
  match lookupAL "high".toList thumbnails with
  | none => none
  | some d => lookupAL "url".toList d

/-- Channel extraction of `process_link` (main.py line 109):
`video["snippet"]["channelTitle"]`, a bare dict index; a missing key
raises `KeyError` (modelled by `Except.error`). -/
def getChannelTitle (snippet : List (Str × Str)) : Except Str Str :=
  match lookupAL "channelTitle".toList snippet with
  | some v => .ok v
  | none => .error "'channelTitle'".toList

/-- Licensing-relevant fields of one item of the metadata response used
by `download`. -/
structure VideoInfo where
  licensedContent : Bool
  description : Str

/-- Environment of one `/download` request: the configuration state and
the outcomes of the two external calls (`request.execute()` and
`ydl.download`); `Except.error m` means the call raised an exception
with message `m`. -/
structure DlEnv where
  apiKeyPresent : Bool
  clientReady : Bool
  metadata : Except Str (List VideoInfo)
  extraction : Except Str Unit

/-- Observable outcome of the `/download` handler: a streaming response
for the extracted id, or an HTTP error with status and detail. -/
inductive DlResult
  | stream (videoId : Str)
  | err (status : Nat) (detail : Str)
deriving DecidableEq

/-- The `download` handler (main.py lines 128-186): key/client checks
raise 500 before the `try` block; inside it, an empty item list raises
404 and non-downloadable content 403 (both `HTTPException`s re-raised
by the first `except` clause); any other exception is turned into a 400
whose detail wraps the original message. -/
def download (url : Str) (env : DlEnv) : DlResult :=
  if !env.apiKeyPresent then
    .err 500 "YOUTUBE_API_KEY environment variable is missing.".toList
  else if !env.clientReady then
    .err 500 "YouTube Data API client not initialized. Please check YOUTUBE_API_KEY validity.".toList
  else
    match env.metadata with
    | .error m => .err 400 ("Error downloading file: ".toList ++ m)
    | .ok [] => .err 404 "Video not found".toList
    | .ok (v :: _) =>
      if !(isDownloadable_dl v.licensedContent v.description) then
        .err 403 "Video is not licensed for download.".toList
      else
        match env.extraction with
        | .error m => .err 400 ("Error downloading file: ".toList ++ m)
        | .ok _ => .stream (extractVideoId_dl url)

/-- One interaction step between the consumer of the streaming response
and the `iterfile` generator: pull the next chunk, or close the
generator (what the server does when the client aborts mid-stream). -/
inductive StreamEv
  | next
  | close

/-- The `iterfile` generator of `download` (main.py lines 172-175)
driven by a consumer; returns whether the transient audio file is still
on disk afterwards.  Exhausting the file loop runs the post-loop
`os.remove` (file gone); closing the generator raises `GeneratorExit`
at the current yield, which runs only the `with` block's exit (closing
the file handle) and skips the code after the loop, so `os.remove` is
never reached. -/
def iterfile (chunks : List Str) (evs : List StreamEv) (fileOnDisk : Bool) : Bool :=
  match evs, chunks with
  | [], _ => fileOnDisk
  | .next :: evs', _ :: cs => iterfile cs evs' fileOnDisk
  | .next :: _, [] => false
  | .close :: _, _ => fileOnDisk

/-! ## Library lemmas about the embedded Python string operations -/

theorem isPrefixOf_true_iff {l₁ l₂ : Str} : l₁.isPrefixOf l₂ = true ↔ l₁ <+: l₂ :=
  List.isPrefixOf_iff_prefix

theorem prependHead_ne_nil (a : Str) (L : List Str) : prependHead a L ≠ [] := by
  cases L <;> simp [prependHead]

theorem prependHead_nil_arg {L : List Str} (h : L ≠ []) : prependHead [] L = L := by
  cases L with
  | nil => exact absurd rfl h
  | cons x t => simp [prependHead]

theorem prependHead_prependHead (c : Char) (a : Str) (L : List Str) :
    prependHead [c] (prependHead a L) = prependHead (c :: a) L := by
  cases L <;> simp [prependHead]

theorem headD_prependHead (a : Str) {L : List Str} (h : L ≠ []) :
    (prependHead a L).headD [] = a ++ L.headD [] := by
  cases L with
  | nil => exact absurd rfl h
  | cons x t => simp [prependHead]

theorem getD1_prependHead (a : Str) {L : List Str} (h : L ≠ []) :
    (prependHead a L).getD 1 [] = L.getD 1 [] := by
  cases L with
  | nil => exact absurd rfl h
  | cons x t => simp [prependHead]

theorem pySplitF_ne_nil (sep : Str) : ∀ (f : Nat) (s : Str), pySplitF sep f s ≠ [] := by
  intro f s
  match f, s with
  | 0, s => simp [pySplitF]
  | _ + 1, [] => simp [pySplitF]
  | fuel + 1, c :: s =>
    rw [pySplitF]
    by_cases hb : (!sep.isEmpty && sep.isPrefixOf (c :: s)) = true
    · simp [hb]
    · simp only [Bool.not_eq_true] at hb
      simp [hb, prependHead_ne_nil]

theorem pySplit_ne_nil (sep s : Str) : pySplit sep s ≠ [] := pySplitF_ne_nil sep _ s

theorem pySplitF_congr (sep : Str) :
    ∀ (f g : Nat) (s : Str), s.length < f → s.length < g →
      pySplitF sep f s = pySplitF sep g s := by
  intro f
  induction f with
  | zero => intro g s hf _; exact absurd hf (Nat.not_lt_zero _)
  | succ f ih =>
    intro g s hf hg
    match g, s with
    | 0, s => exact absurd hg (Nat.not_lt_zero _)
    | g + 1, [] => rfl
    | g + 1, c :: s =>
      rw [pySplitF, pySplitF]
      by_cases hb : (!sep.isEmpty && sep.isPrefixOf (c :: s)) = true
      · simp only [hb, if_true]
        have hlen : (s.drop (sep.length - 1)).length ≤ s.length := by
          rw [List.length_drop]; omega
        rw [ih g (s.drop (sep.length - 1))
          (by simp only [List.length_cons] at hf; omega)
          (by simp only [List.length_cons] at hg; omega)]
      · simp only [Bool.not_eq_true] at hb
        simp only [hb, Bool.false_eq_true, if_false]
        rw [ih g s
          (by simp only [List.length_cons] at hf; omega)
          (by simp only [List.length_cons] at hg; omega)]

theorem pySplit_nil (sep : Str) : pySplit sep [] = [[]] := rfl

theorem pySplit_cons (sep : Str) (c : Char) (s : Str) :
    pySplit sep (c :: s) =
      if !sep.isEmpty && sep.isPrefixOf (c :: s) then
        [] :: pySplit sep (s.drop (sep.length - 1))
      else
        prependHead [c] (pySplit sep s) := by
  show pySplitF sep (s.length + 1 + 1) (c :: s) = _
  rw [pySplitF]
  by_cases hb : (!sep.isEmpty && sep.isPrefixOf (c :: s)) = true
  · simp only [hb, if_true]
    rw [pySplitF_congr sep (s.length + 1) ((s.drop (sep.length - 1)).length + 1)
      (s.drop (sep.length - 1)) (by rw [List.length_drop]; omega) (Nat.lt_succ_self _)]
    rfl
  · simp only [Bool.not_eq_true] at hb
    simp only [hb, Bool.false_eq_true, if_false]
    rfl

theorem pyIn_true_iff {pat s : Str} : pyIn pat s = true ↔ pat <:+: s := by
  simp [pyIn]

theorem pyIn_false_iff {pat s : Str} : pyIn pat s = false ↔ ¬(pat <:+: s) := by
  simp [pyIn]

theorem infix_append_of_left {x a : Str} (b : Str) (h : x <:+: a) : x <:+: a ++ b := by
  obtain ⟨s, t, rfl⟩ := h
  exact ⟨s, t ++ b, by simp⟩

theorem infix_append_of_right (a : Str) {x b : Str} (h : x <:+: b) : x <:+: a ++ b := by
  obtain ⟨s, t, rfl⟩ := h
  exact ⟨a ++ s, t, by simp⟩

theorem single_infix_iff_mem {c : Char} {s : Str} : [c] <:+: s ↔ c ∈ s := by
  constructor
  · rintro ⟨p, q, rfl⟩
    simp
  · intro h
    obtain ⟨p, q, hpq⟩ := List.append_of_mem h
    exact ⟨p, q, by simp [hpq]⟩

theorem not_infix_of_head_notMem {c : Char} {cs s : Str} (h : c ∉ s) :
    ¬((c :: cs) <:+: s) := by
  rintro ⟨p, q, rfl⟩
  exact h (by simp)

theorem pySplit_sep_append (sep b : Str) (hs : sep ≠ []) :
    pySplit sep (sep ++ b) = [] :: pySplit sep b := by
  match sep, hs with
  | c :: sep', _ =>
    rw [List.cons_append, pySplit_cons]
    have hpre : (c :: sep').isPrefixOf (c :: (sep' ++ b)) = true :=
      isPrefixOf_true_iff.mpr ⟨b, by simp⟩
    simp only [List.cons_append] at hpre
    simp only [hpre, List.isEmpty_cons, Bool.not_false, Bool.and_self, if_true]
    have hd : (c :: sep').length - 1 = sep'.length := by simp
    rw [hd, List.drop_left]

theorem infix_take_of_prefix_append {sep a t : Str} (ha : a ≠ [])
    (hp : sep <+: a ++ t) : sep <:+: (a ++ t.take (sep.length - 1)) := by
  by_cases hl : sep.length ≤ a.length
  · have h1 : sep <+: a := List.prefix_of_prefix_length_le hp (List.prefix_append a t) hl
    exact infix_append_of_left _ h1.isInfix
  · push_neg at hl
    have h2 : a <+: sep :=
      List.prefix_of_prefix_length_le (List.prefix_append a t) hp (le_of_lt hl)
    obtain ⟨d, hd⟩ := h2
    obtain ⟨u, hu⟩ := hp
    rw [← hd, List.append_assoc] at hu
    have hdt : d ++ u = t := List.append_cancel_left hu
    have hane : 1 ≤ a.length := by
      cases a with
      | nil => exact absurd rfl ha
      | cons x xs => simp
    have hlen : a.length + d.length = sep.length := by rw [← hd]; simp
    have hdl : d.length ≤ sep.length - 1 := by omega
    have h3 : d <+: t := ⟨u, hdt⟩
    have hdp : d <+: t.take (sep.length - 1) := by
      rw [List.prefix_iff_eq_take] at h3 ⊢
      rw [List.take_take, show min d.length (sep.length - 1) = d.length from by omega]
      exact h3
    obtain ⟨w, hw⟩ := hdp
    refine ⟨[], w, ?_⟩
    have hsw : sep ++ w = a ++ (d ++ w) := by rw [← hd, List.append_assoc]
    rw [List.nil_append, hsw, hw]

theorem pySplit_append_left (sep : Str) (_hs : sep ≠ []) :
    ∀ (a t : Str), ¬(sep <:+: (a ++ t.take (sep.length - 1))) →
      pySplit sep (a ++ t) = prependHead a (pySplit sep t) := by
  intro a
  induction a with
  | nil =>
    intro t _
    rw [List.nil_append, prependHead_nil_arg (pySplit_ne_nil sep t)]
  | cons c a ih =>
    intro t h
    rw [List.cons_append, pySplit_cons]
    have hcond : sep.isPrefixOf (c :: (a ++ t)) = false := by
      by_contra hc
      rw [Bool.not_eq_false, isPrefixOf_true_iff] at hc
      rw [show c :: (a ++ t) = (c :: a) ++ t from rfl] at hc
      exact h (infix_take_of_prefix_append (by simp) hc)
    simp only [hcond, Bool.and_false, Bool.false_eq_true, if_false]
    rw [ih t (fun hinf => h (List.infix_cons hinf)), prependHead_prependHead]

theorem pySplit_no_occur {sep : Str} (hs : sep ≠ []) {s : Str} (h : ¬(sep <:+: s)) :
    pySplit sep s = [s] := by
  have h' : ¬(sep <:+: (s ++ ([] : Str).take (sep.length - 1))) := by
    simpa using h
  have := pySplit_append_left sep hs s [] h'
  simpa [pySplit_nil, prependHead] using this

theorem takeWhile_cons_true {p : Char → Bool} {c : Char} (h : p c = true) (s : Str) :
    (c :: s).takeWhile p = c :: s.takeWhile p := by
  simp [List.takeWhile, h]

theorem takeWhile_cons_false {p : Char → Bool} {c : Char} (h : p c = false) (s : Str) :
    (c :: s).takeWhile p = [] := by
  simp [List.takeWhile, h]

theorem takeWhile_all {p : Char → Bool} :
    ∀ {a : Str}, (∀ x ∈ a, p x = true) → a.takeWhile p = a := by
  intro a
  induction a with
  | nil => intro _; rfl
  | cons c s ih =>
    intro h
    rw [takeWhile_cons_true (h c (by simp)), ih (fun x hx => h x (by simp [hx]))]

theorem takeWhile_append_all {p : Char → Bool} :
    ∀ {a : Str} (b : Str), (∀ x ∈ a, p x = true) →
      (a ++ b).takeWhile p = a ++ b.takeWhile p := by
  intro a
  induction a with
  | nil => intro b _; rfl
  | cons c s ih =>
    intro b h
    rw [List.cons_append, takeWhile_cons_true (h c (by simp)),
      ih b (fun x hx => h x (by simp [hx])), List.cons_append]

theorem takeWhile_append_stop {p : Char → Bool} :
    ∀ {a : Str} (b : Str), (∃ x ∈ a, p x = false) →
      (a ++ b).takeWhile p = a.takeWhile p := by
  intro a
  induction a with
  | nil => intro b h; simp at h
  | cons c s ih =>
    intro b h
    by_cases hc : p c = true
    · rw [List.cons_append, takeWhile_cons_true hc, takeWhile_cons_true hc]
      have h' : ∃ x ∈ s, p x = false := by
        obtain ⟨x, hx, hpx⟩ := h
        rcases List.mem_cons.mp hx with h1 | h1
        · subst h1; rw [hpx] at hc; exact absurd hc (by simp)
        · exact ⟨x, h1, hpx⟩
      rw [ih b h']
    · rw [Bool.not_eq_true] at hc
      rw [List.cons_append, takeWhile_cons_false hc, takeWhile_cons_false hc]

theorem takeWhile_append_last_false {p : Char → Bool} {x : Char} (hx : p x = false) :
    ∀ (a : Str), (a ++ [x]).takeWhile p = a.takeWhile p := by
  intro a
  induction a with
  | nil => simp [takeWhile_cons_false hx]
  | cons c s ih =>
    by_cases hc : p c = true
    · rw [List.cons_append, takeWhile_cons_true hc, takeWhile_cons_true hc, ih]
    · rw [Bool.not_eq_true] at hc
      rw [List.cons_append, takeWhile_cons_false hc, takeWhile_cons_false hc]

theorem getLastD_cons_ne (L : List Str) (h : L ≠ []) (x d : Str) :
    (x :: L).getLastD d = L.getLastD d := by
  cases L with
  | nil => exact absurd rfl h
  | cons y ys => simp [List.getLastD]

theorem pySplit_single_cons (c d : Char) (s : Str) :
    pySplit [c] (d :: s) =
      if c = d then [] :: pySplit [c] s else prependHead [d] (pySplit [c] s) := by
  rw [pySplit_cons]
  by_cases hcd : c = d
  · subst hcd
    simp [List.isPrefixOf]
  · have hp : [c].isPrefixOf (d :: s) = false := by
      simp [List.isPrefixOf, hcd]
    simp [hp, hcd]

theorem length_pySplit_single {c : Char} :
    ∀ {s : Str}, c ∈ s → 2 ≤ (pySplit [c] s).length := by
  intro s
  induction s with
  | nil => intro h; simp at h
  | cons d s ih =>
    intro h
    rw [pySplit_single_cons]
    by_cases hcd : c = d
    · rw [if_pos hcd]
      have := pySplit_ne_nil [c] s
      cases hL : pySplit [c] s with
      | nil => exact absurd hL this
      | cons a t => simp
    · rw [if_neg hcd]
      have hmem : c ∈ s := by
        rcases List.mem_cons.mp h with h1 | h1
        · exact absurd h1 hcd
        · exact h1
      have h2 := ih hmem
      cases hL : pySplit [c] s with
      | nil => exact absurd hL (pySplit_ne_nil [c] s)
      | cons a t =>
        rw [hL] at h2
        simpa [prependHead] using h2

theorem pyCut_single (c : Char) : ∀ s : Str, pyCut [c] s = s.takeWhile (fun x => x != c) := by
  intro s
  induction s with
  | nil => rfl
  | cons d s ih =>
    show (pySplit [c] (d :: s)).headD [] = _
    rw [pySplit_single_cons]
    by_cases hcd : c = d
    · subst hcd
      rw [if_pos rfl, takeWhile_cons_false (by simp)]
      rfl
    · rw [if_neg hcd, headD_prependHead [d] (pySplit_ne_nil [c] s),
        takeWhile_cons_true (by simp [bne_iff_ne]; exact fun h => hcd h.symm)]
      exact congrArg (d :: ·) ih

theorem pyLast_single (c : Char) :
    ∀ s : Str, pyLast [c] s = (s.reverse.takeWhile (fun x => x != c)).reverse := by
  intro s
  induction s with
  | nil => rfl
  | cons d s ih =>
    show (pySplit [c] (d :: s)).getLastD [] = _
    rw [pySplit_single_cons, List.reverse_cons]
    by_cases hcd : c = d
    · subst hcd
      rw [if_pos rfl, getLastD_cons_ne (pySplit [c] s) (pySplit_ne_nil [c] s) [] [],
        takeWhile_append_last_false (by simp) s.reverse]
      exact ih
    · rw [if_neg hcd]
      by_cases hmem : c ∈ s
      · have h2 := length_pySplit_single hmem
        cases hL : pySplit [c] s with
        | nil => exact absurd hL (pySplit_ne_nil [c] s)
        | cons a t =>
          cases t with
          | nil => rw [hL] at h2; simp at h2
          | cons t1 ts =>
            have e1 : (prependHead [d] (a :: t1 :: ts)).getLastD [] =
                (a :: t1 :: ts).getLastD [] := by
              show (([d] ++ a) :: t1 :: ts).getLastD [] = (a :: t1 :: ts).getLastD []
              rw [getLastD_cons_ne (t1 :: ts) (by simp) ([d] ++ a) [],
                getLastD_cons_ne (t1 :: ts) (by simp) a []]
            rw [e1, ← hL]
            show pyLast [c] s = _
            rw [ih, takeWhile_append_stop [d] ⟨c, by simp [hmem], by simp⟩]
      · have hsplit : pySplit [c] s = [s] :=
          pySplit_no_occur (by simp) (not_infix_of_head_notMem hmem)
        rw [hsplit]
        have e2 : (prependHead [d] [s]).getLastD [] = d :: s := by
          simp [prependHead, List.getLastD]
        rw [e2, takeWhile_append_all [d] (fun x hx => by
            simp only [List.mem_reverse] at hx
            simp only [bne_iff_ne, ne_eq, decide_eq_true_eq]
            exact fun he => hmem (he ▸ hx)),
          takeWhile_cons_true (by simp [bne_iff_ne]; exact fun h => hcd h.symm)]
        simp

theorem joinWith_cons_cons (sep x y : Str) (ys : List Str) :
    joinWith sep (x :: y :: ys) = x ++ sep ++ joinWith sep (y :: ys) := rfl

theorem pySplit_joinWith {c : Char} :
    ∀ {lines : List Str}, lines ≠ [] → (∀ l ∈ lines, c ∉ l) →
      pySplit [c] (joinWith [c] lines) = lines := by
  intro lines
  induction lines with
  | nil => intro h; exact absurd rfl h
  | cons l ls ih =>
    intro _ hall
    cases ls with
    | nil =>
      show pySplit [c] l = [l]
      exact pySplit_no_occur (by simp) (not_infix_of_head_notMem (hall l (by simp)))
    | cons l2 ls2 =>
      rw [joinWith_cons_cons, List.append_assoc]
      have hnotin : ¬ ([c] <:+:
          (l ++ ([c] ++ joinWith [c] (l2 :: ls2)).take (([c] : Str).length - 1))) := by
        have h0 : ¬((c :: ([] : Str)) <:+: l) := not_infix_of_head_notMem (hall l (by simp))
        simpa using h0
      rw [pySplit_append_left [c] (by simp) l ([c] ++ joinWith [c] (l2 :: ls2)) hnotin,
        pySplit_sep_append [c] (joinWith [c] (l2 :: ls2)) (by simp)]
      show (l ++ []) :: pySplit [c] (joinWith [c] (l2 :: ls2)) = l :: l2 :: ls2
      rw [List.append_nil, ih (by simp) (fun x hx => hall x (by simp [hx]))]

/-! ## Claim theorems -/

/-- C1: the availability flag is true exactly when `licensedContent` is
false or the (lowercased) description contains "creative commons"; in
particular `licensedContent = false` gives true regardless of the
description, `licensedContent = true` with a case-insensitive
"creative commons" occurrence gives true, and `licensedContent = true`
without such an occurrence gives false. -/
theorem claim_C1_availability :
    (∀ (lc : Bool) (d : Str),
      isDownloadable lc d = true ↔
        (lc = false ∨ pyIn "creative commons".toList (d.map Char.toLower) = true))
    ∧ (∀ d : Str, isDownloadable false d = true)
    ∧ (∀ d : Str, pyIn "creative commons".toList (d.map Char.toLower) = true →
        isDownloadable true d = true)
    ∧ (∀ d : Str, pyIn "creative commons".toList (d.map Char.toLower) = false →
        isDownloadable true d = false) := by
  refine ⟨?_, ?_, ?_, ?_⟩
  · intro lc d
    cases lc <;> simp [isDownloadable]
  · intro d
    simp [isDownloadable]
  · intro d h
    simp only [isDownloadable, Bool.not_true, Bool.false_or]
    exact h
  · intro d h
    simp only [isDownloadable, Bool.not_true, Bool.false_or]
    exact h

/-- C1 witness: a licensed video whose description mentions
"Creative Commons" (mixed case) is downloadable. -/
theorem claim_C1_availability_witness :
    pyIn "creative commons".toList
        ("Licensed under Creative Commons".toList.map Char.toLower) = true
    ∧ isDownloadable true "Licensed under Creative Commons".toList = true :=
  ⟨by decide, claim_C1_availability.2.2.1 _ (by decide)⟩

/-- C9: the video-id extraction and the availability rule duplicated
between `process_link` (lines 75-79, 116-118) and `download`
(lines 138-142, 151-153) are extensionally equal functions. -/
theorem claim_C9_duplicated_logic :
    (∀ url : Str, extractVideoId url = extractVideoId_dl url)
    ∧ (∀ (lc : Bool) (d : Str), isDownloadable lc d = isDownloadable_dl lc d) :=
  ⟨fun _ => rfl, fun _ _ => rfl⟩

/-- C10: a falsy upstream duration (None or the empty string) skips
normalization and is passed through unchanged; in particular the empty
string stays the empty string, and is neither turned into "0:00" nor
into None. -/
theorem claim_C10_falsy_duration :
    (∀ raw : Option Str, strOptTruthy raw = false → processDuration raw = .ok raw)
    ∧ processDuration (some []) = .ok (some [])
    ∧ processDuration (some []) ≠ .ok (some "0:00".toList)
    ∧ processDuration (some []) ≠ .ok none := by
  refine ⟨?_, rfl, ?_, ?_⟩
  · intro raw h
    match raw with
    | none => rfl
    | some s =>
      have hs : s = [] := by
        cases s with
        | nil => rfl
        | cons a t => simp [strOptTruthy] at h
      subst hs
      rfl
  · intro h
    have h' : (Except.ok (some ([] : Str)) : Except Unit (Option Str)) =
        .ok (some "0:00".toList) := h
    exact absurd (Except.ok.inj h') (by decide)
  · intro h
    have h' : (Except.ok (some ([] : Str)) : Except Unit (Option Str)) = .ok none := h
    exact absurd (Except.ok.inj h') (by decide)

/-- C10 witness: the empty-string duration is falsy and passes through. -/
theorem claim_C10_falsy_duration_witness :
    strOptTruthy (some []) = false ∧ processDuration (some []) = .ok (some []) :=
  ⟨rfl, claim_C10_falsy_duration.1 (some []) rfl⟩

/-- C7 counterexample: a thumbnails mapping without a "high" entry but
with another entry ("default", whose url is "http://thumb") yields an
unset thumbnail, not the first available entry as the claim states. -/
theorem claim_C7_thumbnail_cex :
    pickThumbnail [("default".toList, [("url".toList, "http://thumb".toList)])] = none
    ∧ (none : Option Str) ≠ some "http://thumb".toList :=
  ⟨by decide, by decide⟩

/-- C7 amended: the thumbnail is the "high" variant's url when the
"high" entry is present; when "high" is absent the thumbnail is unset
regardless of any other entries (there is no first-entry fallback). -/
theorem claim_C7_thumbnail_amended :
    (∀ thumbs : List (Str × List (Str × Str)),
      lookupAL "high".toList thumbs = none → pickThumbnail thumbs = none)
    ∧ (∀ (thumbs : List (Str × List (Str × Str))) (d : List (Str × Str)),
      lookupAL "high".toList thumbs = some d →
        pickThumbnail thumbs = lookupAL "url".toList d) := by
  constructor
  · intro thumbs h
    unfold pickThumbnail
    rw [h]
  · intro thumbs d h
    unfold pickThumbnail
    rw [h]

/-- C7 witness: the empty thumbnails mapping yields an unset thumbnail. -/
theorem claim_C7_thumbnail_amended_witness :
    lookupAL "high".toList ([] : List (Str × List (Str × Str))) = none
    ∧ pickThumbnail [] = none :=
  ⟨rfl, claim_C7_thumbnail_amended.1 [] rfl⟩

/-- C8 counterexample: with `channelTitle` absent from the snippet the
access fails with a `KeyError` (no placeholder default is returned). -/
theorem claim_C8_channel_cex :
    getChannelTitle [] = Except.error "'channelTitle'".toList
    ∧ (getChannelTitle []).isOk = false :=
  ⟨rfl, rfl⟩

/-- C8 amended: the channel name is read from the snippet's
`channelTitle` field; when present that value is used, and when absent
the access raises (surfacing as a 400 through the handler) rather than
defaulting to a placeholder. -/
theorem claim_C8_channel_amended :
    (∀ (snippet : List (Str × Str)) (v : Str),
      lookupAL "channelTitle".toList snippet = some v →
        getChannelTitle snippet = .ok v)
    ∧ (∀ snippet : List (Str × Str),
      lookupAL "channelTitle".toList snippet = none →
        getChannelTitle snippet = .error "'channelTitle'".toList) := by
  constructor
  · intro snippet v h
    unfold getChannelTitle
    rw [h]
  · intro snippet h
    unfold getChannelTitle
    rw [h]

/-- C8 witness: a snippet carrying a channel title yields it. -/
theorem claim_C8_channel_amended_witness :
    lookupAL "channelTitle".toList [("channelTitle".toList, "Some Artist".toList)] =
      some "Some Artist".toList
    ∧ getChannelTitle [("channelTitle".toList, "Some Artist".toList)] =
      .ok "Some Artist".toList :=
  ⟨by decide, claim_C8_channel_amended.1 _ _ (by decide)⟩

/-- C5: after yt-dlp writes the file, a consumer that pulls one chunk
and then closes the generator (client abort) leaves the file on disk,
because `os.remove` sits after the loop instead of in a finalizer; a
consumer that exhausts the stream does trigger the removal. -/
theorem claim_C5_cleanup_bug :
    iterfile ["chunkA".toList, "chunkB".toList] [StreamEv.next, StreamEv.close] true = true
    ∧ iterfile ["chunkA".toList] [StreamEv.next, StreamEv.next] true = false :=
  ⟨rfl, rfl⟩

/-- C4: the `/download` handler translates every failure into exactly
one of the four outcomes: missing API key gives 500 with a descriptive
message, an empty item list gives 404, non-downloadable content gives
403, an exception from the metadata call or the extraction utility
gives 400 wrapping the underlying message; and every error response
carries one of the statuses 500, 404, 403, 400. -/
theorem claim_C4_download_errors :
    (∀ (url : Str) (env : DlEnv), env.apiKeyPresent = false →
      download url env =
        .err 500 "YOUTUBE_API_KEY environment variable is missing.".toList)
    ∧ (∀ (url : Str) (env : DlEnv), env.apiKeyPresent = true → env.clientReady = true →
      env.metadata = .ok [] →
        download url env = .err 404 "Video not found".toList)
    ∧ (∀ (url : Str) (env : DlEnv) (v : VideoInfo) (vs : List VideoInfo),
      env.apiKeyPresent = true → env.clientReady = true → env.metadata = .ok (v :: vs) →
      isDownloadable_dl v.licensedContent v.description = false →
        download url env = .err 403 "Video is not licensed for download.".toList)
    ∧ (∀ (url : Str) (env : DlEnv) (m : Str),
      env.apiKeyPresent = true → env.clientReady = true → env.metadata = .error m →
        download url env = .err 400 ("Error downloading file: ".toList ++ m))
    ∧ (∀ (url : Str) (env : DlEnv) (v : VideoInfo) (vs : List VideoInfo) (m : Str),
      env.apiKeyPresent = true → env.clientReady = true → env.metadata = .ok (v :: vs) →
      isDownloadable_dl v.licensedContent v.description = true →
      env.extraction = .error m →
        download url env = .err 400 ("Error downloading file: ".toList ++ m))
    ∧ (∀ (url : Str) (env : DlEnv) (st : Nat) (detail : Str),
      download url env = .err st detail → st = 500 ∨ st = 404 ∨ st = 403 ∨ st = 400) := by
  refine ⟨?_, ?_, ?_, ?_, ?_, ?_⟩
  · intro url env h
    simp [download, h]
  · intro url env h1 h2 h3
    simp [download, h1, h2, h3]
  · intro url env v vs h1 h2 h3 h4
    simp [download, h1, h2, h3, h4]
  · intro url env m h1 h2 h3
    simp [download, h1, h2, h3]
  · intro url env v vs m h1 h2 h3 h4 h5
    simp [download, h1, h2, h3, h4, h5]
  · intro url env st detail h
    obtain ⟨ak, cr, md, ex⟩ := env
    cases ak with
    | false =>
      simp [download] at h
      exact Or.inl h.1.symm
    | true =>
      cases cr with
      | false =>
        simp [download] at h
        exact Or.inl h.1.symm
      | true =>
        match md with
        | .error m =>
          simp [download] at h
          exact Or.inr (Or.inr (Or.inr h.1.symm))
        | .ok [] =>
          simp [download] at h
          exact Or.inr (Or.inl h.1.symm)
        | .ok (v :: vs) =>
          by_cases hd : isDownloadable_dl v.licensedContent v.description = true
          · match ex with
            | .error m =>
              simp [download, hd] at h
              exact Or.inr (Or.inr (Or.inr h.1.symm))
            | .ok _ =>
              simp [download, hd] at h
          · rw [Bool.not_eq_true] at hd
            simp [download, hd] at h
            exact Or.inr (Or.inr (Or.inl h.1.symm))

/-- C4 witness: with the API key absent the handler answers 500. -/
theorem claim_C4_download_errors_witness :
    (DlEnv.mk false true (Except.ok []) (Except.ok ())).apiKeyPresent = false
    ∧ download "u".toList (DlEnv.mk false true (Except.ok []) (Except.ok ())) =
        DlResult.err 500 "YOUTUBE_API_KEY environment variable is missing.".toList :=
  ⟨rfl, claim_C4_download_errors.1 "u".toList _ rfl⟩

theorem getD_one_cons (x : Str) (L : List Str) : (x :: L).getD 1 [] = L.headD [] := by
  cases L <;> simp [List.getD]

/-- C2 counterexample: the URL "x/watch?v=abv=cd&e" contains
"watch?v=" followed by "abv=cd" and "&e", so the claim requires the
identifier "abv=cd" (the text between "v=" and the next "&"); the code
splits on every occurrence of "v=" and takes element 1, yielding "ab". -/
theorem claim_C2_extract_cex :
    "x/watch?v=abv=cd&e".toList =
      "x/".toList ++ "watch?v=".toList ++ ("abv=cd".toList ++ "&e".toList)
    ∧ pyIn "watch?v=".toList "x/watch?v=abv=cd&e".toList = true
    ∧ extractVideoId "x/watch?v=abv=cd&e".toList = "ab".toList
    ∧ extractVideoId "x/watch?v=abv=cd&e".toList ≠ "abv=cd".toList :=
  ⟨by decide, by decide, by decide, by decide⟩

/-- C2 amended: for a URL of the form `pre ++ "watch?v=" ++ id ++ rest`
the extracted identifier is exactly `id` provided no "v=" occurs before
the marker, `id` itself contains no "v=", "&" or "?", and `rest` is
empty or begins with "&" (the code cuts the id at any further "v="
occurrence, so the original unconditional claim fails); for a URL not
containing "watch?v=" the identifier is, as claimed, the final
"/"-delimited segment with any "?..." suffix stripped. -/
theorem claim_C2_extract_amended :
    (∀ pre id rest : Str,
      ¬("v=".toList <:+: pre ++ "watch?v".toList) →
      ¬("v=".toList <:+: id ++ ['&']) →
      '&' ∉ id → '?' ∉ id →
      (rest = [] ∨ ∃ r, rest = '&' :: r) →
      extractVideoId (pre ++ "watch?v=".toList ++ (id ++ rest)) = id)
    ∧ (∀ url : Str, pyIn "watch?v=".toList url = false →
      extractVideoId url =
        (url.reverse.takeWhile (fun x => x != '/')).reverse.takeWhile
          (fun x => x != '?')) := by
  constructor
  · intro pre id rest h1 h2 h3 h4 hrest
    have hampAll : ∀ x ∈ id, (x != '&') = true := by
      intro x hx
      rw [bne_iff_ne]
      exact fun he => h3 (he ▸ hx)
    have hqmAll : ∀ x ∈ id, (x != '?') = true := by
      intro x hx
      rw [bne_iff_ne]
      exact fun he => h4 (he ▸ hx)
    have hin : pyIn "watch?v=".toList (pre ++ "watch?v=".toList ++ (id ++ rest)) = true :=
      pyIn_true_iff.mpr ⟨pre, id ++ rest, rfl⟩
    have hlit : "watch?v=".toList = "watch?".toList ++ "v=".toList := rfl
    have hurl : pre ++ "watch?v=".toList ++ (id ++ rest) =
        (pre ++ "watch?".toList) ++ ("v=".toList ++ (id ++ rest)) := by
      rw [hlit]
      simp [List.append_assoc]
    have hyp1 : ¬("v=".toList <:+:
        ((pre ++ "watch?".toList) ++
          ("v=".toList ++ (id ++ rest)).take (("v=".toList).length - 1))) := by
      have htk : ("v=".toList ++ (id ++ rest)).take (("v=".toList).length - 1) = ['v'] := rfl
      rw [htk]
      have hPv : (pre ++ "watch?".toList) ++ ['v'] = pre ++ "watch?v".toList := by
        rw [List.append_assoc]
        exact congrArg (pre ++ ·) (by decide)
      rw [hPv]
      exact h1
    have hsp : pySplit "v=".toList (pre ++ "watch?v=".toList ++ (id ++ rest)) =
        prependHead (pre ++ "watch?".toList)
          ([] :: pySplit "v=".toList (id ++ rest)) := by
      rw [hurl, pySplit_append_left "v=".toList (by decide) (pre ++ "watch?".toList)
          ("v=".toList ++ (id ++ rest)) hyp1,
        pySplit_sep_append "v=".toList (id ++ rest) (by decide)]
    have hidx : pyIdx1 "v=".toList (pre ++ "watch?v=".toList ++ (id ++ rest)) =
        (pySplit "v=".toList (id ++ rest)).headD [] := by
      unfold pyIdx1
      rw [hsp]
      show (((pre ++ "watch?".toList) ++ []) :: pySplit "v=".toList (id ++ rest)).getD 1 []
        = _
      exact getD_one_cons _ _
    have hyp2 : ¬("v=".toList <:+: (id ++ rest.take (("v=".toList).length - 1))) := by
      rcases hrest with rfl | ⟨r, rfl⟩
      · simp only [List.take_nil, List.append_nil]
        exact fun hinf => h2 (infix_append_of_left ['&'] hinf)
      · have : ('&' :: r).take (("v=".toList).length - 1) = ['&'] := rfl
        rw [this]
        exact h2
    have hseg : (pySplit "v=".toList (id ++ rest)).headD [] =
        id ++ (pySplit "v=".toList rest).headD [] := by
      rw [pySplit_append_left "v=".toList (by decide) id rest hyp2,
        headD_prependHead id (pySplit_ne_nil _ _)]
    unfold extractVideoId
    rw [hin, if_pos rfl]
    rcases hrest with rfl | ⟨r, rfl⟩
    · have hone : pyIdx1 "v=".toList (pre ++ "watch?v=".toList ++ (id ++ [])) = id := by
        rw [hidx, hseg]
        simp [pySplit_nil]
      by_cases hamp : pyIn "&".toList (pre ++ "watch?v=".toList ++ (id ++ [])) = true
      · rw [if_pos hamp, hone]
        have hc1 : pyCut "&".toList id = id := by
          show pyCut ['&'] id = id
          rw [pyCut_single]
          exact takeWhile_all hampAll
        rw [hc1]
        show pyCut ['?'] id = id
        rw [pyCut_single]
        exact takeWhile_all hqmAll
      · rw [if_neg hamp, hone]
        show pyCut ['?'] id = id
        rw [pyCut_single]
        exact takeWhile_all hqmAll
    · have hC : pySplit "v=".toList ('&' :: r) =
          prependHead ['&'] (pySplit "v=".toList r) := by
        rw [pySplit_cons]
        have hpf : ("v=".toList).isPrefixOf ('&' :: r) = false := by
          simp [List.isPrefixOf]
        simp [hpf]
      have hone : pyIdx1 "v=".toList (pre ++ "watch?v=".toList ++ (id ++ '&' :: r)) =
          id ++ '&' :: (pySplit "v=".toList r).headD [] := by
        rw [hidx, hseg, hC, headD_prependHead ['&'] (pySplit_ne_nil _ _)]
        rfl
      have hamp : pyIn "&".toList (pre ++ "watch?v=".toList ++ (id ++ '&' :: r)) = true := by
        apply pyIn_true_iff.mpr
        show ['&'] <:+: _
        rw [single_infix_iff_mem]
        simp
      rw [if_pos hamp, hone]
      have hc1 : pyCut "&".toList (id ++ '&' :: (pySplit "v=".toList r).headD []) = id := by
        show pyCut ['&'] _ = id
        rw [pyCut_single, takeWhile_append_all _ hampAll,
          takeWhile_cons_false (by simp)]
        exact List.append_nil id
      rw [hc1]
      show pyCut ['?'] id = id
      rw [pyCut_single]
      exact takeWhile_all hqmAll
  · intro url h
    unfold extractVideoId
    rw [h, if_neg (by simp)]
    show pyCut ['?'] (pyLast ['/'] url) = _
    rw [pyLast_single, pyCut_single]

theorem pyReplace_no_occ {sep : Str} (hs : sep ≠ []) {s : Str} (h : ¬(sep <:+: s)) :
    pyReplace sep [] s = s := by
  unfold pyReplace
  rw [pySplit_no_occur hs h]
  rfl

theorem pyInt_digits {s : Str} (h0 : s ≠ []) (hd : ∀ c ∈ s, c.isDigit = true) :
    pyInt s = some (digitsVal s) := by
  unfold pyInt
  have h1 : s.isEmpty = false := by
    cases s with
    | nil => exact absurd rfl h0
    | cons c t => rfl
  have h2 : s.all Char.isDigit = true := List.all_eq_true.mpr hd
  rw [h1, h2]
  rfl

theorem digit_notMem {x : Char} (hx : x.isDigit = false) {s : Str}
    (hd : ∀ c ∈ s, c.isDigit = true) : x ∉ s := by
  intro hmem
  rw [hd x hmem] at hx
  simp at hx

/-- C2 witness: a realistic watch URL with one extra query parameter
extracts exactly the id between "v=" and "&". -/
theorem claim_C2_extract_amended_witness :
    ('&' ∉ "dQw4w9WgXcQ".toList)
    ∧ extractVideoId ("https://www.youtube.com/".toList ++ "watch?v=".toList ++
        ("dQw4w9WgXcQ".toList ++ "&t=42s".toList)) = "dQw4w9WgXcQ".toList :=
  ⟨by decide,
    claim_C2_extract_amended.1 "https://www.youtube.com/".toList "dQw4w9WgXcQ".toList
      "&t=42s".toList (by decide) (by decide) (by decide) (by decide)
      (Or.inr ⟨"t=42s".toList, rfl⟩)⟩

/-- C3 counterexample: a raw integer seconds count of 213 normalizes to
"0:213", not to "3:33" as the claim states: the no-minutes branch keeps
the seconds value as given and never carries it into minutes. -/
theorem claim_C3_duration_cex :
    durationNorm "213".toList = some "0:213".toList
    ∧ durationNorm "213".toList ≠ some "3:33".toList :=
  ⟨by decide, by decide⟩

/-- C3 amended: a "PT#M#S"-style token yields "minutes:seconds" with
the seconds zero-padded to two digits, and a raw integer seconds count
yields zero minutes with the seconds value rendered as given after the
colon — so 213 yields "0:213" (not "3:33"), the token for 3 minutes
33 seconds yields "3:33", and the token for 45 seconds yields "0:45". -/
theorem claim_C3_duration_amended :
    (∀ m s : Str, m ≠ [] → (∀ c ∈ m, c.isDigit = true) →
      s ≠ [] → (∀ c ∈ s, c.isDigit = true) →
      durationNorm ("PT".toList ++ m ++ "M".toList ++ s ++ "S".toList) =
        some (natStr (digitsVal m) ++ ':' :: pad2 (digitsVal s)))
    ∧ (∀ s : Str, s ≠ [] → (∀ c ∈ s, c.isDigit = true) →
      durationNorm s = some ('0' :: ':' :: pad2 (digitsVal s)))
    ∧ durationNorm "213".toList = some "0:213".toList
    ∧ durationNorm "PT3M33S".toList = some "3:33".toList
    ∧ durationNorm "PT45S".toList = some "0:45".toList := by
  refine ⟨?_, ?_, by decide, by decide, by decide⟩
  · intro m s hm0 hdm hs0 hds
    have hPnotin : 'P' ∉ m ++ 'M' :: (s ++ ['S']) := by
      intro hmem
      rcases List.mem_append.mp hmem with hm | hm
      · exact absurd (hdm 'P' hm) (by decide)
      · rcases List.mem_cons.mp hm with hm1 | hm1
        · exact absurd hm1 (by decide)
        · rcases List.mem_append.mp hm1 with hm2 | hm2
          · exact absurd (hds 'P' hm2) (by decide)
          · rcases List.mem_cons.mp hm2 with hm3 | hm3
            · exact absurd hm3 (by decide)
            · simp at hm3
    have hSnotinA : 'S' ∉ m ++ 'M' :: s := by
      intro hmem
      rcases List.mem_append.mp hmem with hm | hm
      · exact absurd (hdm 'S' hm) (by decide)
      · rcases List.mem_cons.mp hm with hm1 | hm1
        · exact absurd hm1 (by decide)
        · exact absurd (hds 'S' hm1) (by decide)
    have hMnotinM : 'M' ∉ m := digit_notMem (by decide) hdm
    have hMnotinS : 'M' ∉ s := digit_notMem (by decide) hds
    have e1 : "PT".toList ++ m ++ "M".toList ++ s ++ "S".toList =
        "PT".toList ++ (m ++ 'M' :: (s ++ ['S'])) := by
      simp [List.append_assoc]
    have hni1 : ¬("PT".toList <:+: (m ++ 'M' :: (s ++ ['S']))) :=
      not_infix_of_head_notMem hPnotin
    have hrep1 : pyReplace "PT".toList []
        ("PT".toList ++ m ++ "M".toList ++ s ++ "S".toList) =
        m ++ 'M' :: (s ++ ['S']) := by
      unfold pyReplace
      rw [e1, pySplit_sep_append "PT".toList _ (by decide),
        pySplit_no_occur (by decide) hni1]
      rfl
    have e2 : m ++ 'M' :: (s ++ ['S']) = (m ++ 'M' :: s) ++ ("S".toList ++ []) := by
      simp [List.append_assoc]
    have hyp2 : ¬("S".toList <:+:
        ((m ++ 'M' :: s) ++ ("S".toList ++ []).take (("S".toList).length - 1))) := by
      have htk : ("S".toList ++ ([] : Str)).take (("S".toList).length - 1) = [] := rfl
      rw [htk, List.append_nil]
      exact not_infix_of_head_notMem hSnotinA
    have hrep2 : pyReplace "S".toList [] (m ++ 'M' :: (s ++ ['S'])) = m ++ 'M' :: s := by
      unfold pyReplace
      rw [e2, pySplit_append_left "S".toList (by decide) (m ++ 'M' :: s)
          ("S".toList ++ []) hyp2,
        pySplit_sep_append "S".toList [] (by decide)]
      simp [prependHead, joinWith]
    have hstrip : durationStripped ("PT".toList ++ m ++ "M".toList ++ s ++ "S".toList) =
        m ++ 'M' :: s := by
      unfold durationStripped
      rw [hrep1, hrep2]
    have hMin : pyIn "M".toList (m ++ 'M' :: s) = true := by
      apply pyIn_true_iff.mpr
      show ['M'] <:+: _
      rw [single_infix_iff_mem]
      simp
    have hyp3 : ¬("M".toList <:+:
        (m ++ ("M".toList ++ s).take (("M".toList).length - 1))) := by
      have htk : ("M".toList ++ s).take (("M".toList).length - 1) = [] := rfl
      rw [htk, List.append_nil]
      exact not_infix_of_head_notMem hMnotinM
    have hni2 : ¬("M".toList <:+: s) := not_infix_of_head_notMem hMnotinS
    have hspM : pySplit "M".toList (m ++ 'M' :: s) = [m, s] := by
      have e3 : m ++ 'M' :: s = m ++ ("M".toList ++ s) := rfl
      rw [e3, pySplit_append_left "M".toList (by decide) m ("M".toList ++ s) hyp3,
        pySplit_sep_append "M".toList s (by decide),
        pySplit_no_occur (by decide) hni2]
      simp [prependHead]
    have hcut : pyCut "M".toList (m ++ 'M' :: s) = m := by
      unfold pyCut
      rw [hspM]
      rfl
    have hidx1 : pyIdx1 "M".toList (m ++ 'M' :: s) = s := by
      unfold pyIdx1
      rw [hspM]
      rfl
    have hse : s.isEmpty = false := by
      cases s with
      | nil => exact absurd rfl hs0
      | cons c t => rfl
    unfold durationNorm
    rw [hstrip, hMin, if_pos rfl, hcut, hidx1, hse, if_neg (by simp),
      pyInt_digits hm0 hdm, pyInt_digits hs0 hds]
    rfl
  · intro s hs0 hds
    have hPnotin : 'P' ∉ s := digit_notMem (by decide) hds
    have hSnotin : 'S' ∉ s := digit_notMem (by decide) hds
    have hMnotin : 'M' ∉ s := digit_notMem (by decide) hds
    have hniP : ¬("PT".toList <:+: s) := not_infix_of_head_notMem hPnotin
    have hniS : ¬("S".toList <:+: s) := not_infix_of_head_notMem hSnotin
    have hniM : ¬("M".toList <:+: s) := not_infix_of_head_notMem hMnotin
    have hstrip : durationStripped s = s := by
      unfold durationStripped
      rw [pyReplace_no_occ (by decide) hniP, pyReplace_no_occ (by decide) hniS]
    have hMfalse : pyIn "M".toList s = false := pyIn_false_iff.mpr hniM
    unfold durationNorm
    rw [hstrip, hMfalse, if_neg (by simp), pyInt_digits hs0 hds]
    rfl

/-- C3 witness: the token for 7 minutes 8 seconds normalizes to the
minutes numeral, a colon, and the two-digit-padded seconds numeral. -/
theorem claim_C3_duration_amended_witness :
    (∀ c ∈ "08".toList, c.isDigit = true)
    ∧ durationNorm ("PT".toList ++ "7".toList ++ "M".toList ++ "08".toList ++ "S".toList) =
        some (natStr (digitsVal "7".toList) ++ ':' :: pad2 (digitsVal "08".toList)) :=
  ⟨by decide,
    claim_C3_duration_amended.1 "7".toList "08".toList (by decide) (by decide)
      (by decide) (by decide)⟩

theorem findSome?_append_none {f : Str → Option Str} :
    ∀ {L1 : List Str}, (∀ l ∈ L1, f l = none) →
      ∀ L2 : List Str, (L1 ++ L2).findSome? f = L2.findSome? f := by
  intro L1
  induction L1 with
  | nil => intro _ L2; rfl
  | cons x t ih =>
    intro h L2
    rw [List.cons_append, List.findSome?_cons, h x (by simp),
      ih (fun l hl => h l (by simp [hl])) L2]

theorem findSome?_all_none {f : Str → Option Str} :
    ∀ {L : List Str}, (∀ l ∈ L, f l = none) → L.findSome? f = none := by
  intro L
  induction L with
  | nil => intro _; rfl
  | cons x t ih =>
    intro h
    rw [List.findSome?_cons, h x (by simp), ih (fun l hl => h l (by simp [hl]))]

/-- C6 counterexample: for a description line containing "Album:" twice,
"Album: X Album: Y", the code reports album "X" (the text between the
first and second markers), while the claim demands everything after the
first marker, which trims to "X Album: Y". -/
theorem claim_C6_album_cex :
    extractAlbum "Album: X Album: Y".toList = some "X".toList
    ∧ pyStrip " X Album: Y".toList = "X Album: Y".toList
    ∧ some "X".toList ≠ some "X Album: Y".toList :=
  ⟨by decide, by decide, by decide⟩

/-- C6 amended: scanning the description line by line, the first line
containing "Album:" determines the album, and the album is the text
strictly between the first "Album:" marker and the next "Album:"
occurrence in that line (or the end of the line), trimmed of
surrounding whitespace — the code cuts the value at a second marker, so
the original everything-after-the-marker claim fails there.  Stated in
two cases over the line `a ++ "Album:" ++ ...` (with "first marker"
made precise by the no-earlier-occurrence hypotheses): with no further
occurrence the album is everything after the marker, trimmed; with a
further occurrence, `a ++ "Album:" ++ mid ++ "Album:" ++ tail` where
`mid` reaches exactly to the next occurrence, the album is `mid`
trimmed, whatever `tail` holds.  When no line contains "Album:", the
album is left unset; and the claim's own example behaves as stated. -/
theorem claim_C6_album_amended :
    (∀ (L1 L2 : List Str) (a rest : Str),
      (∀ l ∈ L1, pyIn "Album:".toList l = false) →
      (∀ l ∈ L1, '\n' ∉ l) →
      '\n' ∉ a → '\n' ∉ rest →
      (∀ l ∈ L2, '\n' ∉ l) →
      ¬("Album:".toList <:+: a ++ "Album".toList) →
      ¬("Album:".toList <:+: rest) →
      extractAlbum (joinWith ['\n'] (L1 ++ (a ++ "Album:".toList ++ rest) :: L2)) =
        some (pyStrip rest))
    ∧ (∀ (L1 L2 : List Str) (a mid tail : Str),
      (∀ l ∈ L1, pyIn "Album:".toList l = false) →
      (∀ l ∈ L1, '\n' ∉ l) →
      '\n' ∉ a → '\n' ∉ mid → '\n' ∉ tail →
      (∀ l ∈ L2, '\n' ∉ l) →
      ¬("Album:".toList <:+: a ++ "Album".toList) →
      ¬("Album:".toList <:+: mid ++ "Album".toList) →
      extractAlbum (joinWith ['\n']
          (L1 ++ (a ++ "Album:".toList ++ mid ++ "Album:".toList ++ tail) :: L2)) =
        some (pyStrip mid))
    ∧ (∀ descr : Str,
      (∀ l ∈ pySplit ['\n'] descr, pyIn "Album:".toList l = false) →
      extractAlbum descr = none)
    ∧ extractAlbum "Artist - Song\nAlbum: Greatest Hits\nMore text".toList =
        some "Greatest Hits".toList := by
  refine ⟨?_, ?_, ?_, by decide⟩
  · intro L1 L2 a rest hF hN1 hNa hNr hN2 h6 h7
    have hNL : ∀ l ∈ L1 ++ (a ++ "Album:".toList ++ rest) :: L2, '\n' ∉ l := by
      intro l hl
      rcases List.mem_append.mp hl with h | h
      · exact hN1 l h
      · rcases List.mem_cons.mp h with h | h
        · subst h
          intro hmem
          rcases List.mem_append.mp hmem with h' | h'
          · rcases List.mem_append.mp h' with h'' | h''
            · exact hNa h''
            · exact absurd h'' (by decide)
          · exact hNr h'
        · exact hN2 l h
    have hsplitNL : pySplit ['\n']
        (joinWith ['\n'] (L1 ++ (a ++ "Album:".toList ++ rest) :: L2)) =
        L1 ++ (a ++ "Album:".toList ++ rest) :: L2 :=
      pySplit_joinWith (by simp) hNL
    unfold extractAlbum
    rw [hsplitNL, findSome?_append_none (by
      intro l hl
      rw [if_neg]
      rw [hF l hl]
      simp), List.findSome?_cons]
    have hmid : pyIn "Album:".toList (a ++ "Album:".toList ++ rest) = true :=
      pyIn_true_iff.mpr ⟨a, rest, rfl⟩
    rw [if_pos (by rw [hmid])]
    have hyp1 : ¬("Album:".toList <:+:
        (a ++ ("Album:".toList ++ rest).take (("Album:".toList).length - 1))) := by
      have htk : ("Album:".toList ++ rest).take (("Album:".toList).length - 1) =
          "Album".toList := rfl
      rw [htk]
      exact h6
    have hsp : pySplit "Album:".toList (a ++ "Album:".toList ++ rest) =
        prependHead a ([] :: pySplit "Album:".toList rest) := by
      rw [List.append_assoc,
        pySplit_append_left "Album:".toList (by decide) a
          ("Album:".toList ++ rest) hyp1,
        pySplit_sep_append "Album:".toList rest (by decide)]
    have hidx : pyIdx1 "Album:".toList (a ++ "Album:".toList ++ rest) = rest := by
      unfold pyIdx1
      rw [hsp, pySplit_no_occur (by decide) h7]
      show ((a ++ []) :: [rest]).getD 1 [] = rest
      rw [getD_one_cons]
      rfl
    rw [hidx]
  · intro L1 L2 a mid tail hF hN1 hNa hNm hNt hN2 h6 h7
    have hNL : ∀ l ∈ L1 ++
        (a ++ "Album:".toList ++ mid ++ "Album:".toList ++ tail) :: L2, '\n' ∉ l := by
      intro l hl
      rcases List.mem_append.mp hl with h | h
      · exact hN1 l h
      · rcases List.mem_cons.mp h with h | h
        · subst h
          intro hmem
          rcases List.mem_append.mp hmem with h' | h'
          · rcases List.mem_append.mp h' with h'' | h''
            · rcases List.mem_append.mp h'' with h3 | h3
              · rcases List.mem_append.mp h3 with h4 | h4
                · exact hNa h4
                · exact absurd h4 (by decide)
              · exact hNm h3
            · exact absurd h'' (by decide)
          · exact hNt h'
        · exact hN2 l h
    have hsplitNL : pySplit ['\n'] (joinWith ['\n']
        (L1 ++ (a ++ "Album:".toList ++ mid ++ "Album:".toList ++ tail) :: L2)) =
        L1 ++ (a ++ "Album:".toList ++ mid ++ "Album:".toList ++ tail) :: L2 :=
      pySplit_joinWith (by simp) hNL
    unfold extractAlbum
    rw [hsplitNL, findSome?_append_none (by
      intro l hl
      rw [if_neg]
      rw [hF l hl]
      simp), List.findSome?_cons]
    have hmid : pyIn "Album:".toList
        (a ++ "Album:".toList ++ mid ++ "Album:".toList ++ tail) = true :=
      pyIn_true_iff.mpr
        ⟨a, mid ++ "Album:".toList ++ tail, by simp [List.append_assoc]⟩
    rw [if_pos (by rw [hmid])]
    have e : a ++ "Album:".toList ++ mid ++ "Album:".toList ++ tail =
        a ++ ("Album:".toList ++ (mid ++ ("Album:".toList ++ tail))) := by
      simp [List.append_assoc]
    have hyp1 : ¬("Album:".toList <:+:
        (a ++ ("Album:".toList ++ (mid ++ ("Album:".toList ++ tail))).take
          (("Album:".toList).length - 1))) := by
      have htk : ("Album:".toList ++ (mid ++ ("Album:".toList ++ tail))).take
          (("Album:".toList).length - 1) = "Album".toList := rfl
      rw [htk]
      exact h6
    have hyp2 : ¬("Album:".toList <:+:
        (mid ++ ("Album:".toList ++ tail).take (("Album:".toList).length - 1))) := by
      have htk : ("Album:".toList ++ tail).take (("Album:".toList).length - 1) =
          "Album".toList := rfl
      rw [htk]
      exact h7
    have hsp : pySplit "Album:".toList
        (a ++ "Album:".toList ++ mid ++ "Album:".toList ++ tail) =
        prependHead a ([] :: prependHead mid ([] :: pySplit "Album:".toList tail)) := by
      rw [e, pySplit_append_left "Album:".toList (by decide) a
          ("Album:".toList ++ (mid ++ ("Album:".toList ++ tail))) hyp1,
        pySplit_sep_append "Album:".toList (mid ++ ("Album:".toList ++ tail)) (by decide),
        pySplit_append_left "Album:".toList (by decide) mid
          ("Album:".toList ++ tail) hyp2,
        pySplit_sep_append "Album:".toList tail (by decide)]
    have hidx : pyIdx1 "Album:".toList
        (a ++ "Album:".toList ++ mid ++ "Album:".toList ++ tail) = mid := by
      unfold pyIdx1
      rw [hsp]
      show ((a ++ []) :: (mid ++ []) :: pySplit "Album:".toList tail).getD 1 [] = mid
      rw [getD_one_cons]
      simp
    rw [hidx]
  · intro descr h
    unfold extractAlbum
    apply findSome?_all_none
    intro l hl
    rw [if_neg]
    rw [h l hl]
    simp

/-- C6 witness: a three-line description with one "Album:" line yields
the trimmed text after the marker, and a line with two markers yields
the trimmed text between them. -/
theorem claim_C6_album_amended_witness :
    ('\n' ∉ " Greatest Hits".toList)
    ∧ extractAlbum "Intro\nAlbum: Greatest Hits\nOutro".toList =
        some "Greatest Hits".toList
    ∧ extractAlbum "Album: X Album: Y".toList = some "X".toList := by
  refine ⟨by decide, ?_, ?_⟩
  · have h := claim_C6_album_amended.1 ["Intro".toList] ["Outro".toList] []
      " Greatest Hits".toList (by decide) (by decide) (by decide) (by decide)
      (by decide) (by decide) (by decide)
    have e1 : joinWith ['\n'] (["Intro".toList] ++
        (([] : Str) ++ "Album:".toList ++ " Greatest Hits".toList) :: ["Outro".toList]) =
        "Intro\nAlbum: Greatest Hits\nOutro".toList := by decide
    have e2 : pyStrip " Greatest Hits".toList = "Greatest Hits".toList := by decide
    rw [e1, e2] at h
    exact h
  · have h := claim_C6_album_amended.2.1 [] [] [] " X ".toList " Y".toList
      (by decide) (by decide) (by decide) (by decide) (by decide) (by decide)
      (by decide) (by decide)
    have e1 : joinWith ['\n'] (([] : List Str) ++
        (([] : Str) ++ "Album:".toList ++ " X ".toList ++ "Album:".toList ++
          " Y".toList) :: []) = "Album: X Album: Y".toList := by decide
    have e2 : pyStrip " X ".toList = "X".toList := by decide
    rw [e1, e2] at h
    exact h

end FetchMusic
